import Mathlib

/-!
Verification of the MDAP (Massively Decomposed Agentic Process) executor of
the langspace repository (`pkg/runtime`, MDAP execution file) against its
natural-language specification.

The Go code is shallowly embedded: Go maps are represented as association
lists in insertion order, and every place where the code ranges over a Go
map (whose iteration order Go does not fix) takes an explicit iteration-order
function `ord`.  Wall-clock times (timestamps, durations) are omitted.
Machine integers are modelled as `Int` (no arithmetic in the executor can
overflow in any scenario considered here), Go `float64` configuration numbers
as `Rat`.
-/

/-- Go `interface{}` values that can flow through the executor's state slot:
`nil`, a string produced by the response parser, or the empty map that
`executeMDAPPipeline` substitutes for a `nil` input. -/
inductive GoValue where
  | nil
  | str (s : String)
  | emptyMap
deriving DecidableEq, Repr

/-- Parsed langspace property values (`ast.Value`), restricted to the variants
the MDAP executor inspects: `StringValue`, `NumberValue`, `BoolValue`; every
other variant is collapsed into `other` (the executor only does failing type
assertions on those). -/
inductive AstValue where
  | str (s : String)
  | num (q : Rat)
  | bool (b : Bool)
  | other
deriving DecidableEq, Repr

/-- Go's `int(f)` conversion of a `float64`: truncation toward zero. -/
def goInt (q : Rat) : Int :=
  if q < 0 then -(((-q.num).toNat / q.den : Nat) : Int)
  else ((q.num.toNat / q.den : Nat) : Int)

/-- Characters treated as whitespace by `strings.TrimSpace` (ASCII fragment,
which is all the executor's inputs use). -/
def isGoSpace (c : Char) : Bool :=
  c = ' ' || c = '\t' || c = '\n' || c = '\r'

/-- Model of `strings.TrimSpace` on a character list. -/
def trimChars (l : List Char) : List Char :=
  ((l.dropWhile isGoSpace).reverse.dropWhile isGoSpace).reverse

/-- Model of `strings.Split(s, sep)` for a one-character separator. -/
def splitOnChar (sep : Char) : List Char → List (List Char)
  | [] => [[]]
  | c :: rest =>
    let r := splitOnChar sep rest
    if c = sep then [] :: r
    else
      match r with
      | [] => [[c]]
      | h :: t => (c :: h) :: t

/-- Model of `strings.SplitN(s, sep, 2)` for a one-character separator:
the part before the first separator, and — when a separator occurs —
the remainder after it. -/
def splitN2 (sep : Char) : List Char → List Char × Option (List Char)
  | [] => ([], none)
  | c :: rest =>
    if c = sep then ([], some rest)
    else
      let r := splitN2 sep rest
      (c :: r.1, r.2)

/-- MDAPConfig (Go struct `MDAPConfig`).  `OutputPattern` is the compiled
regex, modelled as an optional match predicate on the full content. -/
structure MDAPConfig where
  VotingStrategy : String
  K : Int
  ParallelSamples : Int
  TemperatureFirst : Rat
  TemperatureSubsequent : Rat
  MaxOutputTokens : Int
  RequireFormat : Bool
  CheckpointInterval : Int
  MaxRetries : Int
  OutputPattern : Option (String → Bool)

/-- DefaultMDAPConfig (Go `DefaultMDAPConfig`).  The Go struct literal leaves
`OutputPattern` at its zero value `nil`. -/
def DefaultMDAPConfig : MDAPConfig :=
  { VotingStrategy := "first-to-ahead-by-k"
    K := 3
    ParallelSamples := 3
    TemperatureFirst := 0
    TemperatureSubsequent := (1 : Rat) / 10
    MaxOutputTokens := 750
    RequireFormat := true
    CheckpointInterval := 1000
    MaxRetries := 100
    OutputPattern := none }

/-- loadMDAPConfig (Go `Runtime.loadMDAPConfig`): reads the pipeline's
`mdap_config` property bag (`none` models a `nil` `pipeline.Config`) and
overrides the defaults field by field; each override applies only when the
property exists and has the expected dynamic type, exactly as the Go type
assertions do. -/
def loadMDAPConfig (configBag : Option (List (String × AstValue))) : MDAPConfig :=
  match configBag with
  | none => DefaultMDAPConfig
  | some cfg =>
    let c := DefaultMDAPConfig
    let c := match cfg.lookup "voting_strategy" with
      | some (.str s) => { c with VotingStrategy := s }
      | _ => c
    let c := match cfg.lookup "k" with
      | some (.num q) =>
        let c := { c with K := goInt q }
        if c.ParallelSamples = 0 then { c with ParallelSamples := c.K } else c
      | _ => c
    let c := match cfg.lookup "parallel_samples" with
      | some (.num q) => { c with ParallelSamples := goInt q }
      | _ => c
    let c := match cfg.lookup "temperature_first" with
      | some (.num q) => { c with TemperatureFirst := q }
      | _ => c
    let c := match cfg.lookup "temperature_subsequent" with
      | some (.num q) => { c with TemperatureSubsequent := q }
      | _ => c
    let c := match cfg.lookup "max_output_tokens" with
      | some (.num q) => { c with MaxOutputTokens := goInt q }
      | _ => c
    let c := match cfg.lookup "require_format" with
      | some (.bool b) => { c with RequireFormat := b }
      | _ => c
    let c := match cfg.lookup "checkpoint_interval" with
      | some (.num q) => { c with CheckpointInterval := goInt q }
      | _ => c
    c

/-- MDAPSample (Go struct `MDAPSample`).  `NextState` holds the parsed
`next_state` string, `none` modelling the `nil` interface value. -/
structure MDAPSample where
  Content : String
  Action : String
  NextState : Option String
  TokenCount : Int
  RedFlagged : Bool
  RedFlagReason : String
deriving DecidableEq, Repr

/-- Go zero value `MDAPSample{}` — what a lookup of an absent key in the
`samples` map would produce. -/
def zeroMDAPSample : MDAPSample :=
  { Content := "", Action := "", NextState := none, TokenCount := 0,
    RedFlagged := false, RedFlagReason := "" }

/-- parseHanoiResponse (Go `Runtime.parseHanoiResponse`): scans the content
line by line; a trimmed line starting with `move`/`Move` and containing `=`
overwrites the action with the trimmed right-hand side, and likewise
`next_state`/`Next_state` for the next state.  Later matching lines win. -/
def parseHanoiResponse (content : String) : String × Option String :=
  (splitOnChar '\n' content.toList).foldl
    (fun acc lineRaw =>
      let line := trimChars lineRaw
      let acc :=
        if "move".toList.isPrefixOf line ∨ "Move".toList.isPrefixOf line then
          match (splitN2 '=' line).2 with
          | some rhs => (String.mk (trimChars rhs), acc.2)
          | none => acc
        else acc
      if "next_state".toList.isPrefixOf line ∨ "Next_state".toList.isPrefixOf line then
        match (splitN2 '=' line).2 with
        | some rhs => (acc.1, some (String.mk (trimChars rhs)))
        | none => acc
      else acc)
    ("", none)

/-- Outcome of one provider call inside `parallelSample`: either a provider
error or a completion with its content and `Usage.OutputTokens`. -/
inductive CompletionOutcome where
  | err (msg : String)
  | ok (content : String) (outputTokens : Int)
deriving DecidableEq, Repr

/-- Construction of one sample inside `parallelSample`'s goroutine body: a
provider error yields a pre-red-flagged sample with reason `"LLM error: …"`,
a successful completion is parsed with `parseHanoiResponse`. -/
def mkSample (outcome : CompletionOutcome) : MDAPSample :=
  match outcome with
  | .err msg =>
    { Content := "", Action := "", NextState := none, TokenCount := 0,
      RedFlagged := true, RedFlagReason := "LLM error: " ++ msg }
  | .ok content tokens =>
    let p := parseHanoiResponse content
    { Content := content, Action := p.1, NextState := p.2, TokenCount := tokens,
      RedFlagged := false, RedFlagReason := "" }

/-- The round size computed at the top of `parallelSample`:
`config.ParallelSamples`, falling back to `config.K` when non-positive. -/
def numSamples (config : MDAPConfig) : Nat :=
  (if config.ParallelSamples ≤ 0 then config.K else config.ParallelSamples).toNat

/-- parallelSample (Go `Runtime.parallelSample`): issues `numSamples`
provider calls for the given round and returns the samples as an
index-ordered vector.  The provider's responses are abstracted as the
`stream` function from (round, sample index) to the call's outcome;
temperatures and prompts do not influence anything the claims mention and
the request construction is therefore not replayed here. -/
def parallelSample (stream : Nat → Nat → CompletionOutcome) (config : MDAPConfig)
    (round : Nat) : List MDAPSample :=
  (List.range (numSamples config)).map (fun i => mkSample (stream round i))

/-- Application of the optional output pattern: true when a pattern is set
and the content fails to match it. -/
def patternFails (pat : Option (String → Bool)) (content : String) : Bool :=
  match pat with
  | none => false
  | some p => !(p content)

/-- isRedFlagged (Go `Runtime.isRedFlagged`): returns the (possibly
mutated) sample together with the verdict.  The Go function mutates the
sample in place and returns only the verdict; the updated sample is made
explicit here so that the recorded `RedFlagReason` is observable. -/
def isRedFlagged (config : MDAPConfig) (sample : MDAPSample) : MDAPSample × Bool :=
  if sample.RedFlagged then (sample, true)
  else if config.MaxOutputTokens > 0 ∧ sample.TokenCount > config.MaxOutputTokens then
    ({ sample with
       RedFlagged := true
       RedFlagReason := "response too long: " ++ toString sample.TokenCount
         ++ " tokens > " ++ toString config.MaxOutputTokens }, true)
  else if config.RequireFormat = true ∧ patternFails config.OutputPattern sample.Content then
    ({ sample with
       RedFlagged := true
       RedFlagReason := "response does not match required format" }, true)
  else if sample.Action = "" then
    ({ sample with
       RedFlagged := true
       RedFlagReason := "could not extract action from response" }, true)
  else (sample, false)

/-- Increment of `votes[action]` on a Go map, represented as an association
list in insertion order: an existing key is bumped in place, a new key is
appended with count 1. -/
def bumpVote (votes : List (String × Nat)) (action : String) : List (String × Nat) :=
  match votes with
  | [] => [(action, 1)]
  | (b, c) :: t => if b = action then (b, c + 1) :: t else (b, c) :: bumpVote t action

/-- Assignment `m[k] = v` on a Go map represented as an association list in
insertion order: an existing key is overwritten in place, a new key is
appended. -/
def assocSet {α : Type} (m : List (String × α)) (k : String) (v : α) : List (String × α) :=
  match m with
  | [] => [(k, v)]
  | (b, c) :: t => if b = k then (b, v) :: t else (b, c) :: assocSet t k v

/-- One iteration of the `maxVotes`/`secondMax` scan in Go
`Runtime.hasWinner` (`if v > maxVotes { secondMax, maxVotes = maxVotes, v }
else if v > secondMax { secondMax = v }`). -/
def msStep (acc : Nat × Nat) (p : String × Nat) : Nat × Nat :=
  if p.2 > acc.1 then (p.2, acc.1)
  else if p.2 > acc.2 then (acc.1, p.2)
  else acc

/-- The `maxVotes`/`secondMax` scan of Go `Runtime.hasWinner`, folded over the
map entries in the given iteration order. -/
def maxSnd (votes : List (String × Nat)) : Nat × Nat :=
  votes.foldl msStep (0, 0)

/-- hasWinner (Go `Runtime.hasWinner`): true when some action's count leads
the second-largest count by at least `k`.  The list argument is the `votes`
map in some iteration order. -/
def hasWinner (votes : List (String × Nat)) (k : Int) : Bool :=
  !votes.isEmpty && (((maxSnd votes).1 : Int) ≥ ((maxSnd votes).2 : Int) + k)

/-- One iteration of the winner scan in Go `Runtime.getWinner`
(`if v > maxVotes { maxVotes = v; winner = action }`). -/
def gwStep (acc p : String × Nat) : String × Nat :=
  if p.2 > acc.2 then p else acc

/-- The full winner scan of Go `Runtime.getWinner`, starting from the zero
values `winner = ""`, `maxVotes = 0`. -/
def getWinnerAux (votes : List (String × Nat)) : String × Nat :=
  votes.foldl gwStep ("", 0)

/-- getWinner (Go `Runtime.getWinner`): the action with the most votes,
scanning the map entries in the given iteration order and keeping the first
entry that strictly exceeds the running maximum. -/
def getWinner (votes : List (String × Nat)) : String :=
  (getWinnerAux votes).1

/-- The local state of the voting loop in `executeMicrostepWithVoting`:
the `votes` and `samples` maps (in insertion order) and the two local
counters. -/
structure VoteAcc where
  votes : List (String × Nat)
  samples : List (String × MDAPSample)
  totalSamples : Nat
  rejectedSamples : Nat
deriving DecidableEq, Repr

/-- Processing of a single returned sample inside the voting loop, without
the winner check: red-flagged samples bump `rejectedSamples`, all others are
tallied (with the dead fallback from action to full content kept as in the
source) and stored as their action's representative. -/
def tallyStep (config : MDAPConfig) (acc : VoteAcc) (s : MDAPSample) : VoteAcc :=
  if (isRedFlagged config s).2 then
    { acc with rejectedSamples := acc.rejectedSamples + 1 }
  else
    let action := if s.Action = "" then s.Content else s.Action
    { acc with
      votes := bumpVote acc.votes action
      samples := assocSet acc.samples action s }

/-- StepResult (Go struct `StepResult`), without the wall-clock fields. -/
structure StepResult where
  Name : String
  Success : Bool
  Output : String
  Error : Option String
deriving DecidableEq, Repr

/-- What `executeMicrostepWithVoting` produces.  The first four fields are
the Go function's return values `(stepResult, action, nextState, err)`; the
remaining fields expose the function's local variables `totalSamples` and
`rejectedSamples` and the round at which a winner was declared (Go keeps
these local — they are surfaced here only as observables for the proofs,
`executeMDAPPipeline` below never reads them). -/
structure StepRunOutcome where
  stepResult : StepResult
  action : String
  nextState : Option String
  err : Option String
  totalSamples : Nat
  rejectedSamples : Nat
  commitRound : Option Nat
deriving DecidableEq, Repr

/-- The early `return` of `executeMicrostepWithVoting` once a winner is
declared: the winner's representative sample supplies the step output and
the next state. -/
def commitOutcome (stepName : String) (round : Nat) (winner : String)
    (winnerSample : MDAPSample) (acc : VoteAcc) : StepRunOutcome :=
  { stepResult := { Name := stepName, Success := true,
                    Output := winnerSample.Content, Error := none }
    action := winner
    nextState := winnerSample.NextState
    err := none
    totalSamples := acc.totalSamples
    rejectedSamples := acc.rejectedSamples
    commitRound := some round }

/-- The fall-through of `executeMicrostepWithVoting` after `MaxRetries`
rounds without consensus. -/
def noConsensusOutcome (stepName : String) (acc : VoteAcc) : StepRunOutcome :=
  let msg := "failed to reach consensus after " ++ toString acc.totalSamples
    ++ " samples (" ++ toString acc.rejectedSamples ++ " rejected)"
  { stepResult := { Name := stepName, Success := false, Output := "", Error := some msg }
    action := ""
    nextState := none
    err := some msg
    totalSamples := acc.totalSamples
    rejectedSamples := acc.rejectedSamples
    commitRound := none }

/-- The inner `for _, sample := range roundSamples` loop of
`executeMicrostepWithVoting`: processes the round's samples in index order
and short-circuits with a winner as soon as the first-to-ahead-by-k check
fires.  `ord` is the iteration order in which Go happens to range over the
`votes` map at the check. -/
def processSamples (config : MDAPConfig)
    (ord : List (String × Nat) → List (String × Nat)) :
    List MDAPSample → VoteAcc → (String × MDAPSample × VoteAcc) ⊕ VoteAcc
  | [], acc => .inr acc
  | s :: rest, acc =>
    if (isRedFlagged config s).2 then
      processSamples config ord rest (tallyStep config acc s)
    else
      let acc' := tallyStep config acc s
      if config.VotingStrategy = "first-to-ahead-by-k" ∧
          hasWinner (ord acc'.votes) config.K = true then
        let winner := getWinner (ord acc'.votes)
        .inl (winner, (acc'.samples.lookup winner).getD zeroMDAPSample, acc')
      else
        processSamples config ord rest acc'

/-- The `for round := 0; round < config.MaxRetries; round++` loop of
`executeMicrostepWithVoting`.  `fuel` counts the remaining rounds
(`fuel + round = MaxRetries` at every call), `acc` carries the voting state
across rounds. -/
def votingLoop (stepName : String) (config : MDAPConfig)
    (stream : Nat → Nat → CompletionOutcome)
    (ord : List (String × Nat) → List (String × Nat)) :
    Nat → Nat → VoteAcc → StepRunOutcome
  | 0, _, acc => noConsensusOutcome stepName acc
  | fuel + 1, round, acc =>
    let roundSamples := parallelSample stream config round
    let acc₁ := { acc with totalSamples := acc.totalSamples + roundSamples.length }
    match processSamples config ord roundSamples acc₁ with
    | .inl (winner, winnerSample, accF) =>
      commitOutcome stepName round winner winnerSample accF
    | .inr accF =>
      if config.VotingStrategy = "majority" ∧ accF.votes ≠ [] ∧
          (accF.totalSamples : Int) ≥ config.K * 3 then
        let winner := getWinner (ord accF.votes)
        commitOutcome stepName round winner
          ((accF.samples.lookup winner).getD zeroMDAPSample) accF
      else
        votingLoop stepName config stream ord fuel (round + 1) accF

/-- executeMicrostepWithVoting (Go `Runtime.executeMicrostepWithVoting`),
restricted to its voting part.  The agent/prompt/provider resolution that
precedes the loop in Go performs I/O and only shapes the provider requests;
its effect on the claims is fully captured by the abstract `stream` of
per-round, per-index completion outcomes. -/
def executeMicrostepWithVoting (stepName : String) (config : MDAPConfig)
    (stream : Nat → Nat → CompletionOutcome)
    (ord : List (String × Nat) → List (String × Nat)) : StepRunOutcome :=
  votingLoop stepName config stream ord config.MaxRetries.toNat 0
    { votes := [], samples := [], totalSamples := 0, rejectedSamples := 0 }

/-- MicrostepEntity (`ast.MicrostepEntity`), restricted to the pieces the
MDAP executor reads: the name and the optional string `prompt` property.
The `use` agent reference only matters for the skipped provider resolution. -/
structure MicrostepEntity where
  name : String
  prompt : Option String
deriving DecidableEq, Repr

/-- generateMicrostep (Go `Runtime.generateMicrostep`): the dynamic
microstep for step `stepIdx`.  The Go parameters `state` and `strategy` are
unused in the source body and kept here for signature fidelity. -/
def generateMicrostep (stepIdx : Nat) (_state : GoValue) (_strategy : String) :
    MicrostepEntity :=
  { name := "step-" ++ toString stepIdx
    prompt := some "Determine and execute the next move." }

/-- The microstep selection inside `executeMDAPPipeline`'s step loop:
`isDynamic` (`len(pipeline.Microsteps) == 0 && totalSteps > 0`) chooses
`generateMicrostep`, otherwise the loop indexes `pipeline.Microsteps[stepIdx]`
without a bounds check — `none` models the Go panic `index out of range`. -/
def selectMicrostep (microsteps : List MicrostepEntity) (totalSteps : Int)
    (stepIdx : Nat) (state : GoValue) (strategy : String) : Option MicrostepEntity :=
  if microsteps.length = 0 ∧ totalSteps > 0 then
    some (generateMicrostep stepIdx state strategy)
  else
    microsteps[stepIdx]?

/-- MDAPPipelineEntity (`ast.MDAPPipelineEntity`), restricted to what
`executeMDAPPipeline` reads: the entity name, the microstep list, the nested
`mdap_config` property bag (`none` = `nil`) and the top-level property bag
(for `total_steps`). -/
structure MDAPPipelineEntity where
  name : String
  Microsteps : List MicrostepEntity
  Config : Option (List (String × AstValue))
  props : List (String × AstValue)

/-- ProgressEvent types (`ProgressTypeStart` etc.). -/
inductive ProgressType where
  | start
  | step
  | error
  | complete
deriving DecidableEq, Repr

/-- ProgressEvent (Go struct `ProgressEvent`); the metadata map is kept as a
key/value list. -/
structure ProgressEvent where
  type : ProgressType
  message : String
  step : String := ""
  progress : Int := 0
  metadata : List (String × String) := []
deriving DecidableEq, Repr

/-- MDAPCheckpoint (Go struct `MDAPCheckpoint`), without the wall-clock
timestamp. -/
structure MDAPCheckpoint where
  StepIndex : Nat
  State : GoValue
deriving DecidableEq, Repr

/-- ExecutionResult (Go struct `ExecutionResult`), the part of the result
that `executeMDAPPipeline` actually returns to its caller.  `Output` is the
final state (`GoValue.nil` when never assigned); the wall-clock `Duration`
is omitted. -/
structure ExecutionResult where
  Success : Bool
  Output : GoValue
  Error : Option String
  StepResults : List (String × StepResult)
  Metadata : List (String × String)
deriving DecidableEq, Repr

/-- MDAPExecutionResult (Go struct `MDAPExecutionResult`): the embedded
`ExecutionResult` fields plus the MDAP-specific metrics.  `VotingRounds` is
declared in the source and never written, exactly as here. -/
structure MDAPExecutionResult where
  Success : Bool := false
  Output : GoValue := GoValue.nil
  Error : Option String := none
  StepResults : List (String × StepResult) := []
  Metadata : List (String × String) := []
  TotalMicrosteps : Nat := 0
  TotalSamples : Nat := 0
  RejectedSamples : Nat := 0
  VotingRounds : Nat := 0
  Checkpoints : List MDAPCheckpoint := []
deriving DecidableEq, Repr

/-- The projection performed by `return result.ExecutionResult`: the caller
receives only the embedded `ExecutionResult`; the MDAP wrapper with the
counters and checkpoints is discarded. -/
def MDAPExecutionResult.toExecutionResult (r : MDAPExecutionResult) : ExecutionResult :=
  { Success := r.Success
    Output := r.Output
    Error := r.Error
    StepResults := r.StepResults
    Metadata := r.Metadata }

/-- The start event emitted at the top of `executeMDAPPipeline`. -/
def startEvent (p : MDAPPipelineEntity) : ProgressEvent :=
  { type := ProgressType.start
    message := "Executing MDAP pipeline: " ++ p.name ++ " with "
      ++ toString p.Microsteps.length ++ " microsteps" }

/-- The checkpoint progress event emitted inside the step loop. -/
def checkpointEvent (stepIdx : Nat) : ProgressEvent :=
  { type := ProgressType.step
    message := "Checkpoint at step " ++ toString stepIdx
    step := "checkpoint-" ++ toString stepIdx }

/-- The throttled per-step progress event emitted at the top of
`executeMicrostepWithVoting` (suppressed unless `stepIdx % 100 == 0` or
`stepIdx < 10`); `progress = stepIdx * 100 / totalSteps`. -/
def stepStartEvents (stepIdx totalSteps : Nat) (stepName : String) : List ProgressEvent :=
  if stepIdx % 100 = 0 ∨ stepIdx < 10 then
    [{ type := ProgressType.step
       message := "Step " ++ toString (stepIdx + 1) ++ "/" ++ toString totalSteps
         ++ ": " ++ stepName
       step := stepName
       progress := ((stepIdx * 100) / totalSteps : Nat) }]
  else []

/-- The error event emitted when a microstep fails; its message is the
unwrapped step error. -/
def errorEvent (msg stepName : String) : ProgressEvent :=
  { type := ProgressType.error
    message := msg
    step := stepName }

/-- The terminal completion event of `executeMDAPPipeline`, with the
metadata map built from the result's counters (the wall-clock `duration`
entry is omitted). -/
def completeEvent (r : MDAPExecutionResult) : ProgressEvent :=
  { type := ProgressType.complete
    message := "MDAP pipeline completed: " ++ toString r.TotalMicrosteps
      ++ " steps, " ++ toString r.TotalSamples ++ " samples, "
      ++ toString r.RejectedSamples ++ " rejected"
    progress := 100
    metadata := [("total_steps", toString r.TotalMicrosteps),
                 ("total_samples", toString r.TotalSamples),
                 ("rejected_samples", toString r.RejectedSamples)] }

/-- Conversion of a committed `next_state` back into the Go interface value
assigned to `state` (`nil` when the winner carried no parsed next state). -/
def goStateOf (ns : Option String) : GoValue :=
  match ns with
  | some s => GoValue.str s
  | none => GoValue.nil

/-- The `for stepIdx := 0; stepIdx < totalSteps; stepIdx++` loop of
`executeMDAPPipeline`.  `rem` counts remaining iterations
(`rem + stepIdx = totalSteps` throughout).  The three-level provider stream
gives each step its own per-round, per-index outcomes.  A `none` result
models the Go panic when the loop indexes past a non-empty microstep list. -/
def execSteps (config : MDAPConfig) (stream : Nat → Nat → Nat → CompletionOutcome)
    (ord : List (String × Nat) → List (String × Nat))
    (microsteps : List MicrostepEntity) (totalSteps : Int) (strategy : String) :
    Nat → Nat → GoValue → String → MDAPExecutionResult → List ProgressEvent →
    Option (MDAPExecutionResult × List ProgressEvent)
  | 0, _, state, _, res, evs =>
    let res := { res with Success := true, Output := state }
    some (res, evs ++ [completeEvent res])
  | rem + 1, stepIdx, state, _lastAction, res, evs =>
    let doCkpt : Bool := config.CheckpointInterval > 0 ∧ stepIdx > 0 ∧
      (stepIdx : Int) % config.CheckpointInterval = 0
    let res := if doCkpt then
        { res with Checkpoints := res.Checkpoints ++ [⟨stepIdx, state⟩] }
      else res
    let evs := if doCkpt then evs ++ [checkpointEvent stepIdx] else evs
    match selectMicrostep microsteps totalSteps stepIdx state strategy with
    | none => none
    | some microstep =>
      let evs := evs ++ stepStartEvents stepIdx totalSteps.toNat microstep.name
      let out := executeMicrostepWithVoting microstep.name config (stream stepIdx) ord
      let res := { res with
        TotalMicrosteps := res.TotalMicrosteps + 1
        StepResults := assocSet res.StepResults microstep.name out.stepResult }
      match out.err with
      | some e =>
        some ({ res with Error := some ("microstep \"" ++ microstep.name
                  ++ "\" failed: " ++ e) },
              evs ++ [errorEvent e microstep.name])
      | none =>
        execSteps config stream ord microsteps totalSteps strategy rem (stepIdx + 1)
          (goStateOf out.nextState) out.action res evs

/-- executeMDAPPipeline (Go `Runtime.executeMDAPPipeline`).  Inputs: the
pipeline entity, the initial state (`ctx.Variables["input"]`, replaced by an
empty map when `nil`), the provider stream and the map iteration order.
Output: the final `MDAPExecutionResult` just before `return` together with
the emitted progress events, or `none` when the step loop panics.  The Go
function returns only `result.ExecutionResult`
(see `MDAPExecutionResult.toExecutionResult`); the strategy text only feeds
the prompt and is irrelevant here. -/
def executeMDAPPipeline (p : MDAPPipelineEntity) (input : GoValue)
    (stream : Nat → Nat → Nat → CompletionOutcome)
    (ord : List (String × Nat) → List (String × Nat)) :
    Option (MDAPExecutionResult × List ProgressEvent) :=
  let config := loadMDAPConfig p.Config
  let state := if input = GoValue.nil then GoValue.emptyMap else input
  let totalSteps : Int :=
    match p.props.lookup "total_steps" with
    | some (.num q) => goInt q
    | _ => (p.Microsteps.length : Int)
  execSteps config stream ord p.Microsteps totalSteps "" totalSteps.toNat 0 state ""
    {} [startEvent p]

/-- Substring containment on character lists (`strings.Contains`). -/
def listContains (needle : List Char) : List Char → Bool
  | [] => needle.isEmpty
  | c :: rest => needle.isPrefixOf (c :: rest) || listContains needle rest

/-- Modelled from the spec: a step-declared forbidden-substring red-flag
predicate ("Any step-declared red-flag predicate fires: regex match,
forbidden substring, field not in an allowed enumeration") — the sample is
red-flagged when its content contains the forbidden substring.  No code
under `pkg/runtime` implements step-declared red-flag rules; this definition
exists only to compare the specified filter with the implemented one. -/
def specStepRedFlagContains (forbidden : String) (s : MDAPSample) : Bool :=
  listContains forbidden.toList s.Content.toList

/-- The red-flag filter as an ordered rule list (first matching rule wins
and its reason is recorded), restricted to the four rules the code
implements: provider error, token length (with the positive-limit guard),
output-pattern mismatch under `require_format`, empty action.  When no rule
fires the sample's reason is left unchanged. -/
def specRedFlagFour (config : MDAPConfig) (s : MDAPSample) : Bool × String :=
  let rules : List (Bool × String) :=
    [ (s.RedFlagged, s.RedFlagReason),
      (decide (config.MaxOutputTokens > 0 ∧ s.TokenCount > config.MaxOutputTokens),
        "response too long: " ++ toString s.TokenCount ++ " tokens > "
          ++ toString config.MaxOutputTokens),
      (decide (config.RequireFormat = true ∧ patternFails config.OutputPattern s.Content = true),
        "response does not match required format"),
      (decide (s.Action = ""), "could not extract action from response") ]
  match rules.find? (fun r => r.1) with
  | some r => (true, r.2)
  | none => (false, s.RedFlagReason)

/-- Whether round `i` of the given stream contains at least one sample that
passes the red-flag filter (and is therefore tallied). -/
def roundHasAccepted (config : MDAPConfig) (stream : Nat → Nat → CompletionOutcome)
    (i : Nat) : Bool :=
  (parallelSample stream config i).any (fun s => !(isRedFlagged config s).2)

/-- Whether any of rounds `0 … i` contains a tallied sample. -/
def talliedBy (config : MDAPConfig) (stream : Nat → Nat → CompletionOutcome)
    (i : Nat) : Bool :=
  (List.range (i + 1)).any (roundHasAccepted config stream)

/-- The end-of-round majority declaration condition actually enforced by the
voting loop after round `i`: some sample has been tallied so far, and the
cumulative number of samples taken — including rejected ones — is at least
`3k`. -/
def majorityGuard (config : MDAPConfig) (stream : Nat → Nat → CompletionOutcome)
    (i : Nat) : Bool :=
  talliedBy config stream i &&
    decide ((((i + 1) * numSamples config : Nat) : Int) ≥ config.K * 3)

/-- The identity iteration order (one possible order in which Go may range
over a map). -/
def ordId : List (String × Nat) → List (String × Nat) := fun l => l

/-- The reversed iteration order (another possible order in which Go may
range over the same map). -/
def ordRev : List (String × Nat) → List (String × Nat) := fun l => l.reverse

/-- A microstep shaped like the `"move"` microstep of the repository's
Tower-of-Hanoi example (one explicit microstep, `total_steps` larger). -/
def moveMicrostep : MicrostepEntity :=
  { name := "move", prompt := some "Determine and execute the next move." }

/-- Majority-voting configuration bag `{voting_strategy: "majority", k: 1}`. -/
def majK1Bag : List (String × AstValue) :=
  [("voting_strategy", AstValue.str "majority"), ("k", AstValue.num 1)]

/-- The effective config for `majK1Bag`. -/
def cfgMajK1 : MDAPConfig := loadMDAPConfig (some majK1Bag)

/-- First-to-ahead configuration bag `{k: 2, parallel_samples: 2}`. -/
def ftaK2Bag : List (String × AstValue) :=
  [("k", AstValue.num 2), ("parallel_samples", AstValue.num 2)]

/-- The effective config for `ftaK2Bag`. -/
def cfgFtaK2 : MDAPConfig := loadMDAPConfig (some ftaK2Bag)

/-- Per-step stream: every provider call answers `move = A`, `next_state = s1`. -/
def streamAllA : Nat → Nat → CompletionOutcome :=
  fun _ _ => CompletionOutcome.ok "move = A\nnext_state = s1" 10

/-- Per-step stream: two provider errors, then one valid `A` sample. -/
def streamTwoErrOneA : Nat → Nat → CompletionOutcome :=
  fun _ i => if i = 2 then CompletionOutcome.ok "move = A\nnext_state = s1" 10
    else CompletionOutcome.err "boom"

/-- Per-step stream: sample 0 votes `A`, sample 1 votes `A` with a different
next state. -/
def streamTwoA : Nat → Nat → CompletionOutcome :=
  fun _ i => if i = 0 then CompletionOutcome.ok "move = A\nnext_state = s1" 10
    else CompletionOutcome.ok "move = A\nnext_state = s2" 10

/-- Per-step stream: sample 0 votes `A`, sample 1 votes `B`, sample 2 errors
— a tied tally at the end of the round. -/
def streamTieAB : Nat → Nat → CompletionOutcome :=
  fun _ i => if i = 0 then CompletionOutcome.ok "move = A\nnext_state = sA" 10
    else if i = 1 then CompletionOutcome.ok "move = B\nnext_state = sB" 10
    else CompletionOutcome.err "boom"

/-- Dynamic single-step majority pipeline (no explicit microsteps,
`total_steps: 1`). -/
def pipeDyn1 : MDAPPipelineEntity :=
  { name := "dyn1"
    Microsteps := []
    Config := some majK1Bag
    props := [("total_steps", AstValue.num 1)] }

/-- Pipeline stream for `pipeDyn1`-style runs: step 0 always answers `A`,
every later step errors. -/
def pStreamAThenErr : Nat → Nat → Nat → CompletionOutcome :=
  fun stepIdx _ _ => if stepIdx = 0 then CompletionOutcome.ok "move = A\nnext_state = s1" 10
    else CompletionOutcome.err "boom"

/-- Majority-voting bag with one sample per round (so that a failing step
exhausts `MaxRetries` quickly) and `checkpoint_interval: 1`. -/
def ckpt1Bag : List (String × AstValue) :=
  majK1Bag ++ [("parallel_samples", AstValue.num 1), ("checkpoint_interval", AstValue.num 1)]

/-- The same bag with `checkpoint_interval: 0` (checkpoints disabled). -/
def ckpt0Bag : List (String × AstValue) :=
  majK1Bag ++ [("parallel_samples", AstValue.num 1), ("checkpoint_interval", AstValue.num 0)]

/-- Dynamic two-step majority pipeline with `checkpoint_interval: 1`. -/
def pipeCkpt1 : MDAPPipelineEntity :=
  { name := "ck"
    Microsteps := []
    Config := some ckpt1Bag
    props := [("total_steps", AstValue.num 2)] }

/-- The same pipeline with `checkpoint_interval: 0` (checkpoints disabled). -/
def pipeCkpt0 : MDAPPipelineEntity :=
  { name := "ck"
    Microsteps := []
    Config := some ckpt0Bag
    props := [("total_steps", AstValue.num 2)] }

/-- Dynamic one-step majority pipeline whose only step fails (every
provider call errors). -/
def pipeFail1 : MDAPPipelineEntity :=
  { name := "f1"
    Microsteps := []
    Config := some (majK1Bag ++ [("parallel_samples", AstValue.num 1)])
    props := [("total_steps", AstValue.num 1)] }

/-- Pipeline stream in which every provider call errors. -/
def pStreamErr : Nat → Nat → Nat → CompletionOutcome :=
  fun _ _ _ => CompletionOutcome.err "boom"

/-- The result part of the (always computable) failing run of `pipeFail1`. -/
def failRunResult : MDAPExecutionResult :=
  ((executeMDAPPipeline pipeFail1 (GoValue.str "init") pStreamErr ordId).getD ({}, [])).1

/-- The event part of the failing run of `pipeFail1`. -/
def failRunEvents : List ProgressEvent :=
  ((executeMDAPPipeline pipeFail1 (GoValue.str "init") pStreamErr ordId).getD ({}, [])).2

/-- A sample whose content carries a forbidden shell command but which
passes every implemented red-flag rule. -/
def sampleRmRf : MDAPSample :=
  mkSample (CompletionOutcome.ok "move = rm -rf /tmp\nnext_state = s" 10)

/-- The `ExecutionResult` that both checkpoint-interval variants of the
failing two-step run hand back to the caller. -/
def ckptRunReturned : ExecutionResult :=
  { Success := false
    Output := GoValue.nil
    Error := some "microstep \"step-1\" failed: failed to reach consensus after 100 samples (100 rejected)"
    StepResults :=
      [("step-0", { Name := "step-0", Success := true,
                    Output := "move = A\nnext_state = s1", Error := none }),
       ("step-1", { Name := "step-1", Success := false, Output := "",
                    Error := some "failed to reach consensus after 100 samples (100 rejected)" })]
    Metadata := [] }

theorem msStep_spec (acc : Nat × Nat) (p : String × Nat) :
    (p.2 > acc.1 ∧ msStep acc p = (p.2, acc.1)) ∨
    (¬ p.2 > acc.1 ∧ p.2 > acc.2 ∧ msStep acc p = (acc.1, p.2)) ∨
    (¬ p.2 > acc.1 ∧ ¬ p.2 > acc.2 ∧ msStep acc p = acc) := by
  unfold msStep
  by_cases h1 : p.2 > acc.1
  · exact Or.inl ⟨h1, by rw [if_pos h1]⟩
  · by_cases h2 : p.2 > acc.2
    · exact Or.inr (Or.inl ⟨h1, h2, by rw [if_neg h1, if_pos h2]⟩)
    · exact Or.inr (Or.inr ⟨h1, h2, by rw [if_neg h1, if_neg h2]⟩)

theorem msStep_snd_le_fst (acc : Nat × Nat) (p : String × Nat)
    (h : acc.2 ≤ acc.1) : (msStep acc p).2 ≤ (msStep acc p).1 := by
  rcases msStep_spec acc p with ⟨h1, he⟩ | ⟨h1, h2, he⟩ | ⟨h1, h2, he⟩ <;>
    simp only [he] <;> omega

theorem msStep_fst_mono (acc : Nat × Nat) (p : String × Nat) :
    acc.1 ≤ (msStep acc p).1 := by
  rcases msStep_spec acc p with ⟨h1, he⟩ | ⟨h1, h2, he⟩ | ⟨h1, h2, he⟩ <;>
    simp only [he] <;> omega

theorem msStep_snd_mono (acc : Nat × Nat) (p : String × Nat)
    (h : acc.2 ≤ acc.1) : acc.2 ≤ (msStep acc p).2 := by
  rcases msStep_spec acc p with ⟨h1, he⟩ | ⟨h1, h2, he⟩ | ⟨h1, h2, he⟩ <;>
    simp only [he] <;> omega

theorem msStep_fst_ge_self (acc : Nat × Nat) (p : String × Nat) :
    p.2 ≤ (msStep acc p).1 := by
  rcases msStep_spec acc p with ⟨h1, he⟩ | ⟨h1, h2, he⟩ | ⟨h1, h2, he⟩ <;>
    simp only [he] <;> omega

theorem foldl_msStep_snd_le_fst :
    ∀ (l : List (String × Nat)) (acc : Nat × Nat), acc.2 ≤ acc.1 →
      (List.foldl msStep acc l).2 ≤ (List.foldl msStep acc l).1
  | [], _, h => h
  | p :: t, acc, h =>
    foldl_msStep_snd_le_fst t (msStep acc p) (msStep_snd_le_fst acc p h)

theorem foldl_msStep_fst_mono :
    ∀ (l : List (String × Nat)) (acc : Nat × Nat),
      acc.1 ≤ (List.foldl msStep acc l).1
  | [], _ => Nat.le_refl _
  | p :: t, acc =>
    Nat.le_trans (msStep_fst_mono acc p) (foldl_msStep_fst_mono t (msStep acc p))

theorem foldl_msStep_snd_mono :
    ∀ (l : List (String × Nat)) (acc : Nat × Nat), acc.2 ≤ acc.1 →
      acc.2 ≤ (List.foldl msStep acc l).2
  | [], _, _ => Nat.le_refl _
  | p :: t, acc, h =>
    Nat.le_trans (msStep_snd_mono acc p h)
      (foldl_msStep_snd_mono t (msStep acc p) (msStep_snd_le_fst acc p h))

theorem foldl_msStep_fst_ge :
    ∀ (l : List (String × Nat)) (acc : Nat × Nat) (p : String × Nat), p ∈ l →
      p.2 ≤ (List.foldl msStep acc l).1
  | q :: t, acc, p, hp => by
    rcases List.mem_cons.mp hp with rfl | hmem
    · exact Nat.le_trans (msStep_fst_ge_self acc p)
        (foldl_msStep_fst_mono t (msStep acc p))
    · exact foldl_msStep_fst_ge t (msStep acc q) p hmem

theorem foldl_msStep_fst_mem :
    ∀ (l : List (String × Nat)) (acc : Nat × Nat),
      (List.foldl msStep acc l).1 = acc.1 ∨
        ∃ p ∈ l, p.2 = (List.foldl msStep acc l).1
  | [], _ => Or.inl rfl
  | q :: t, acc => by
    rcases foldl_msStep_fst_mem t (msStep acc q) with h | ⟨p, hp, hv⟩
    · simp only [List.foldl_cons] at h ⊢
      rcases msStep_spec acc q with ⟨h1, he⟩ | ⟨h1, h2, he⟩ | ⟨h1, h2, he⟩ <;>
        simp only [he] at h ⊢
      · exact Or.inr ⟨q, List.mem_cons_self _ _, h.symm⟩
      · exact Or.inl h
      · exact Or.inl h
    · exact Or.inr ⟨p, List.mem_cons_of_mem _ hp, hv⟩

theorem foldl_msStep_count :
    ∀ (l : List (String × Nat)) (acc : Nat × Nat), acc.2 ≤ acc.1 →
      l.countP (fun p => decide ((List.foldl msStep acc l).2 < p.2)) +
        (if (List.foldl msStep acc l).2 < acc.1 then 1 else 0) ≤ 1
  | [], acc, h => by
    simp only [List.countP_nil, Nat.zero_add, List.foldl_nil]
    split <;> omega
  | q :: t, acc, h => by
    have hinv : (msStep acc q).2 ≤ (msStep acc q).1 := msStep_snd_le_fst acc q h
    have ih := foldl_msStep_count t (msStep acc q) hinv
    have hmono : (msStep acc q).2 ≤ (List.foldl msStep (msStep acc q) t).2 :=
      foldl_msStep_snd_mono t (msStep acc q) hinv
    simp only [List.foldl_cons, List.countP_cons, decide_eq_true_eq] at ih hmono ⊢
    rcases msStep_spec acc q with ⟨h1, he⟩ | ⟨h1, h2, he⟩ | ⟨h1, h2, he⟩ <;>
      simp only [he] at ih hmono ⊢
    · rw [if_neg (show ¬ (List.foldl msStep (q.2, acc.1) t).2 < acc.1 by omega)]
      omega
    · rw [if_neg (show ¬ (List.foldl msStep (acc.1, q.2) t).2 < q.2 by omega)]
      omega
    · rw [if_neg (show ¬ (List.foldl msStep acc t).2 < q.2 by omega)]
      omega

theorem gwStep_cases (acc p : String × Nat) :
    gwStep acc p = acc ∨ gwStep acc p = p := by
  unfold gwStep
  split
  · exact Or.inr rfl
  · exact Or.inl rfl

theorem foldl_gwStep_mem :
    ∀ (l : List (String × Nat)) (acc : String × Nat),
      List.foldl gwStep acc l = acc ∨ (List.foldl gwStep acc l) ∈ l
  | [], _ => Or.inl rfl
  | q :: t, acc => by
    simp only [List.foldl_cons]
    rcases foldl_gwStep_mem t (gwStep acc q) with h | hmem
    · rw [h]
      rcases gwStep_cases acc q with h2 | h2
      · exact Or.inl h2
      · rw [h2]
        exact Or.inr (List.mem_cons_self _ _)
    · exact Or.inr (List.mem_cons_of_mem _ hmem)

theorem gwStep_snd_mono (acc p : String × Nat) : acc.2 ≤ (gwStep acc p).2 := by
  unfold gwStep
  split
  · omega
  · exact Nat.le_refl _

theorem gwStep_snd_ge_self (acc p : String × Nat) : p.2 ≤ (gwStep acc p).2 := by
  unfold gwStep
  split
  · exact Nat.le_refl _
  · omega

theorem foldl_gwStep_snd_mono :
    ∀ (l : List (String × Nat)) (acc : String × Nat),
      acc.2 ≤ (List.foldl gwStep acc l).2
  | [], _ => Nat.le_refl _
  | q :: t, acc =>
    Nat.le_trans (gwStep_snd_mono acc q) (foldl_gwStep_snd_mono t (gwStep acc q))

theorem foldl_gwStep_snd_ge :
    ∀ (l : List (String × Nat)) (acc : String × Nat) (p : String × Nat), p ∈ l →
      p.2 ≤ (List.foldl gwStep acc l).2
  | q :: t, acc, p, hp => by
    rcases List.mem_cons.mp hp with rfl | hmem
    · exact Nat.le_trans (gwStep_snd_ge_self acc p)
        (foldl_gwStep_snd_mono t (gwStep acc p))
    · exact foldl_gwStep_snd_ge t (gwStep acc q) p hmem

theorem two_mem_le_length {α : Type} :
    ∀ (l : List α) (a b : α), a ∈ l → b ∈ l → a ≠ b → 2 ≤ l.length
  | c :: t, a, b, ha, hb, hab => by
    rcases List.mem_cons.mp ha with rfl | ha'
    · rcases List.mem_cons.mp hb with rfl | hb'
      · exact absurd rfl hab
      · have := List.length_pos.mpr (List.ne_nil_of_mem hb')
        simp only [List.length_cons]
        omega
    · have := List.length_pos.mpr (List.ne_nil_of_mem ha')
      simp only [List.length_cons]
      omega

theorem getWinner_entry (l : List (String × Nat)) (k : Int) (hk : 1 ≤ k)
    (hw : hasWinner l k = true) :
    (getWinner l, (maxSnd l).1) ∈ l ∧
    (((maxSnd l).2 : Int) + k ≤ ((maxSnd l).1 : Int)) ∧
    ∀ p ∈ l, (maxSnd l).2 < p.2 → p = (getWinner l, (maxSnd l).1) := by
  unfold hasWinner at hw
  simp only [Bool.and_eq_true, Bool.not_eq_true', decide_eq_true_eq] at hw
  have hsm : ((maxSnd l).2 : Int) + k ≤ ((maxSnd l).1 : Int) := by
    have := hw.2
    omega
  have hlt : (maxSnd l).2 < (maxSnd l).1 := by omega
  have hmx1 : 1 ≤ (maxSnd l).1 := by omega
  -- the maximum is attained by some entry
  have hattained : ∃ p ∈ l, p.2 = (maxSnd l).1 := by
    rcases foldl_msStep_fst_mem l (0, 0) with h | h
    · exfalso
      unfold maxSnd at hmx1
      omega
    · exact h
  obtain ⟨pstar, hpstar, hpv⟩ := hattained
  -- the winner scan ends on an entry of the list carrying the maximum
  have hge : pstar.2 ≤ (getWinnerAux l).2 := foldl_gwStep_snd_ge l ("", 0) pstar hpstar
  have hgw_mem : getWinnerAux l ∈ l := by
    rcases foldl_gwStep_mem l ("", 0) with h | h
    · exfalso
      have : (getWinnerAux l).2 = 0 := by
        unfold getWinnerAux
        rw [h]
      omega
    · exact h
  have hle : (getWinnerAux l).2 ≤ (maxSnd l).1 := foldl_msStep_fst_ge l (0, 0) _ hgw_mem
  have hval : (getWinnerAux l).2 = (maxSnd l).1 := by omega
  have hpair : getWinnerAux l = (getWinner l, (maxSnd l).1) := by
    unfold getWinner
    rw [Prod.ext_iff]
    exact ⟨rfl, hval⟩
  refine ⟨hpair ▸ hgw_mem, hsm, ?_⟩
  -- uniqueness: at most one entry exceeds secondMax
  intro p hp hgt
  by_contra hne
  have hcount : l.countP (fun p => decide ((maxSnd l).2 < p.2)) ≤ 1 := by
    have := foldl_msStep_count l (0, 0) (Nat.le_refl 0)
    rw [if_neg (show ¬ (List.foldl msStep (0, 0) l).2 < 0 by omega)] at this
    unfold maxSnd
    omega
  rw [List.countP_eq_length_filter] at hcount
  have hpf : p ∈ l.filter (fun p => decide ((maxSnd l).2 < p.2)) :=
    List.mem_filter.mpr ⟨hp, by simpa using hgt⟩
  have hwf : (getWinner l, (maxSnd l).1) ∈ l.filter (fun p => decide ((maxSnd l).2 < p.2)) :=
    List.mem_filter.mpr ⟨hpair ▸ hgw_mem, by simpa using hlt⟩
  have := two_mem_le_length _ p (getWinner l, (maxSnd l).1) hpf hwf hne
  omega

/-- C9: whenever the first-to-ahead-by-k declaration condition `hasWinner`
holds for the tally (in the iteration order Go happens to use at that
moment; this is exactly the guard under which `executeMicrostepWithVoting`
commits a winner under the `first-to-ahead-by-k` strategy), the declared
winner `getWinner` has an entry in the tally whose count exceeds every
other entry's count by at least `k`. -/
theorem first_to_ahead_commit_margin (votes : List (String × Nat)) (k : Int)
    (hk : 1 ≤ k) (hw : hasWinner votes k = true) :
    ∃ c, (getWinner votes, c) ∈ votes ∧
      ∀ p ∈ votes, p.1 ≠ getWinner votes → (p.2 : Int) + k ≤ (c : Int) := by
  obtain ⟨hmem, hmargin, huniq⟩ := getWinner_entry votes k hk hw
  refine ⟨(maxSnd votes).1, hmem, ?_⟩
  intro p hp hne
  by_cases hgt : (maxSnd votes).2 < p.2
  · exact absurd (congrArg Prod.fst (huniq p hp hgt)) hne
  · omega

/-- C9 witness: on the concrete tally `A ↦ 3, B ↦ 1` with `k = 2` the
declaration condition holds and the margin bound follows. -/
theorem first_to_ahead_commit_margin_witness :
    (1 : Int) ≤ 2 ∧ hasWinner [("A", 3), ("B", 1)] 2 = true ∧
      ∃ c : Nat, (getWinner [("A", 3), ("B", 1)], c) ∈ [("A", 3), ("B", 1)] ∧
        ∀ p ∈ ([("A", 3), ("B", 1)] : List (String × Nat)),
          p.1 ≠ getWinner [("A", 3), ("B", 1)] →
          (p.2 : Int) + 2 ≤ (c : Int) := by
  refine ⟨by decide, by decide, ?_⟩
  exact first_to_ahead_commit_margin [("A", 3), ("B", 1)] 2 (by decide) (by decide)

/-- C8 (amended part): when the first-to-ahead-by-k declaration condition
holds with margin `k ≥ 1`, the declared winner does not depend on the order
in which Go iterates the `votes` map — any permutation of the tally yields
the same `getWinner`.  Combined with the strictly sequential, index-ordered
sample processing, committed actions and next states under
`first-to-ahead-by-k` are a function of config, provider stream and initial
state alone. -/
theorem getWinner_iteration_order_irrelevant_under_margin
    (votes votes' : List (String × Nat)) (k : Int) (hk : 1 ≤ k)
    (hperm : List.Perm votes' votes) (hw : hasWinner votes k = true) :
    getWinner votes' = getWinner votes := by
  obtain ⟨hmem, hmargin, huniq⟩ := getWinner_entry votes k hk hw
  have hmem' : (getWinner votes, (maxSnd votes).1) ∈ votes' := hperm.mem_iff.mpr hmem
  have h1 : (maxSnd votes).1 ≤ (getWinnerAux votes').2 :=
    foldl_gwStep_snd_ge votes' ("", 0) _ hmem'
  have hmx1 : 1 ≤ (maxSnd votes).1 := by omega
  have h2 : getWinnerAux votes' ∈ votes' := by
    rcases foldl_gwStep_mem votes' ("", 0) with h | h
    · exfalso
      have : (getWinnerAux votes').2 = 0 := by
        unfold getWinnerAux
        rw [h]
      omega
    · exact h
  have h3 : getWinnerAux votes' ∈ votes := hperm.mem_iff.mp h2
  have h4 : (getWinnerAux votes').2 ≤ (maxSnd votes).1 :=
    foldl_msStep_fst_ge votes (0, 0) _ h3
  have h5 : (maxSnd votes).2 < (getWinnerAux votes').2 := by omega
  have h6 := congrArg Prod.fst (huniq (getWinnerAux votes') h3 h5)
  exact h6

/-- C8 amended witness: on the tally `A ↦ 3, B ↦ 1` (margin 2) the reversed
iteration order yields the same winner as the original order. -/
theorem getWinner_iteration_order_irrelevant_witness :
    (1 : Int) ≤ 2 ∧
    List.Perm [("B", 1), ("A", 3)] [("A", 3), ("B", 1)] ∧
    hasWinner [("A", 3), ("B", 1)] 2 = true ∧
    getWinner [("B", 1), ("A", 3)] = getWinner [("A", 3), ("B", 1)] :=
  ⟨by decide, by decide, by decide,
   getWinner_iteration_order_irrelevant_under_margin [("A", 3), ("B", 1)]
     [("B", 1), ("A", 3)] 2 (by decide) (by decide) (by decide)⟩

/-- C7 (amended part): overwriting map assignment makes the stored
representative for an action always the most recently tallied sample, for
every prior state of the `samples` map — the "first-seen wins" rule of the
claim does not hold, the last-seen sample wins. -/
theorem assocSet_last_seen_wins :
    ∀ (m : List (String × MDAPSample)) (a : String) (s : MDAPSample),
      (assocSet m a s).lookup a = some s
  | [], a, s => by simp [assocSet, List.lookup]
  | (b, c) :: t, a, s => by
    by_cases h : b = a
    · subst h
      simp [assocSet, List.lookup]
    · have hba : (a == b) = false := by simpa using Ne.symm h
      simp only [assocSet, if_neg h, List.lookup, hba]
      exact assocSet_last_seen_wins t a s

/-- C4 (amended part): the implemented red-flag filter is exactly the
ordered disjunction of the four rules of `specRedFlagFour` — provider
error, token length over a positive limit, output-pattern mismatch under
`require_format`, empty action — with the first matching rule's reason
recorded; no fifth, step-declared rule exists (the filter does not even
receive the step). -/
theorem isRedFlagged_eq_specRedFlagFour (config : MDAPConfig) (s : MDAPSample) :
    (isRedFlagged config s).2 = (specRedFlagFour config s).1 ∧
    (isRedFlagged config s).1.RedFlagReason = (specRedFlagFour config s).2 := by
  unfold isRedFlagged specRedFlagFour
  by_cases h1 : s.RedFlagged
  · simp [h1, List.find?]
  · by_cases h2 : config.MaxOutputTokens > 0 ∧ s.TokenCount > config.MaxOutputTokens
    · simp [h1, h2, List.find?]
    · by_cases h3 : config.RequireFormat = true ∧ patternFails config.OutputPattern s.Content = true
      · simp [h1, h2, h3, List.find?]
      · by_cases h4 : s.Action = ""
        · simp [h1, h2, h3, h4, List.find?]
        · simp [h1, h2, h3, h4, List.find?]

/-- C10: whatever the pipeline's `mdap_config` contains, the effective
config produced by `loadMDAPConfig` keeps `MaxRetries = 100` and
`OutputPattern = nil`: neither `max_retries` nor `output_pattern` is ever
read from the property bag, so only the eight read keys can move a field
away from `DefaultMDAPConfig`. -/
theorem loadMDAPConfig_frame (configBag : Option (List (String × AstValue))) :
    (loadMDAPConfig configBag).MaxRetries = DefaultMDAPConfig.MaxRetries ∧
    (loadMDAPConfig configBag).MaxRetries = 100 ∧
    (loadMDAPConfig configBag).OutputPattern = none := by
  cases configBag with
  | none => exact ⟨rfl, rfl, rfl⟩
  | some cfg =>
    simp only [loadMDAPConfig]
    repeat' split
    all_goals exact ⟨rfl, rfl, rfl⟩

theorem ite_ckpt_Success {c : Prop} [Decidable c] (res : MDAPExecutionResult)
    (cps : List MDAPCheckpoint) :
    (if c then { res with Checkpoints := cps } else res).Success = res.Success := by
  split <;> rfl

theorem ite_ckpt_Output {c : Prop} [Decidable c] (res : MDAPExecutionResult)
    (cps : List MDAPCheckpoint) :
    (if c then { res with Checkpoints := cps } else res).Output = res.Output := by
  split <;> rfl

theorem ite_ckpt_Error {c : Prop} [Decidable c] (res : MDAPExecutionResult)
    (cps : List MDAPCheckpoint) :
    (if c then { res with Checkpoints := cps } else res).Error = res.Error := by
  split <;> rfl

theorem execSteps_failure_invariant
    (config : MDAPConfig) (stream : Nat → Nat → Nat → CompletionOutcome)
    (ord : List (String × Nat) → List (String × Nat))
    (ms : List MicrostepEntity) (ts : Int) (strat : String) :
    ∀ (rem stepIdx : Nat) (state : GoValue) (la : String)
      (res : MDAPExecutionResult) (evs : List ProgressEvent)
      (r : MDAPExecutionResult) (evsF : List ProgressEvent),
      res.Success = false → res.Output = GoValue.nil → res.Error = none →
      execSteps config stream ord ms ts strat rem stepIdx state la res evs = some (r, evsF) →
      r.Error.isSome = true →
      r.Success = false ∧ r.Output = GoValue.nil := by
  intro rem
  induction rem with
  | zero =>
    intro stepIdx state la res evs r evsF hs ho he heq herr
    simp only [execSteps, Option.some.injEq, Prod.mk.injEq] at heq
    obtain ⟨hr, -⟩ := heq
    rw [← hr] at herr
    have : res.Error.isSome = true := herr
    rw [he] at this
    simp at this
  | succ n ih =>
    intro stepIdx state la res evs r evsF hs ho he heq herr
    simp only [execSteps] at heq
    split at heq
    · simp at heq
    · rename_i microstep hsel
      split at heq
      · rename_i e herr_eq
        simp only [Option.some.injEq, Prod.mk.injEq] at heq
        obtain ⟨hr, -⟩ := heq
        subst hr
        refine ⟨?_, ?_⟩
        · show (if _ then _ else res).Success = false
          rw [ite_ckpt_Success]
          exact hs
        · show (if _ then _ else res).Output = GoValue.nil
          rw [ite_ckpt_Output]
          exact ho
      · exact ih (stepIdx + 1) _ _ _ _ r evsF
          (by show (if _ then _ else res).Success = false
              rw [ite_ckpt_Success]
              exact hs)
          (by show (if _ then _ else res).Output = GoValue.nil
              rw [ite_ckpt_Output]
              exact ho)
          (by show (if _ then _ else res).Error = none
              rw [ite_ckpt_Error]
              exact he)
          heq herr

/-- C3 (amended part): whenever a run of `executeMDAPPipeline` ends with an
error set, the returned `ExecutionResult` has `success = false`, keeps the
per-step results map, and carries no committed state: `Output` is left at
its `nil` zero value (the committed state, like the checkpoints and the
sample counters, lives only on the discarded MDAP wrapper or in locals). -/
theorem failure_returns_success_false_output_nil
    (p : MDAPPipelineEntity) (input : GoValue)
    (stream : Nat → Nat → Nat → CompletionOutcome)
    (ord : List (String × Nat) → List (String × Nat))
    (r : MDAPExecutionResult) (evs : List ProgressEvent)
    (heq : executeMDAPPipeline p input stream ord = some (r, evs))
    (herr : r.Error.isSome = true) :
    r.toExecutionResult.Success = false ∧
    r.toExecutionResult.Output = GoValue.nil ∧
    r.toExecutionResult.StepResults = r.StepResults := by
  simp only [executeMDAPPipeline] at heq
  have h := execSteps_failure_invariant _ stream ord p.Microsteps _ "" _ 0 _ ""
    {} _ r evs rfl rfl rfl heq herr
  exact ⟨h.1, h.2, rfl⟩

/-- C3 amended witness: the concrete failing run `pipeFail1` (its only step
reaches no consensus) sets the error, and the theorem applies. -/
theorem failure_returns_success_false_output_nil_witness :
    failRunResult.Error.isSome = true ∧
    failRunResult.toExecutionResult.Success = false ∧
    failRunResult.toExecutionResult.Output = GoValue.nil := by
  have heq : executeMDAPPipeline pipeFail1 (GoValue.str "init") pStreamErr ordId =
      some (failRunResult, failRunEvents) := rfl
  have herr : failRunResult.Error.isSome = true := rfl
  have h := failure_returns_success_false_output_nil pipeFail1 (GoValue.str "init")
    pStreamErr ordId failRunResult failRunEvents heq herr
  exact ⟨herr, h.1, h.2.1⟩

set_option maxRecDepth 4000 in
/-- C3 counterexample: two failing runs that differ only in
`checkpoint_interval` (1 vs 0) return byte-identical `ExecutionResult`s
although one took a checkpoint and the other took none — the value returned
to the caller does not contain the checkpoints (nor the wrapper counters),
so it cannot "preserve the checkpoints taken so far". -/
theorem returned_result_drops_checkpoints :
    (executeMDAPPipeline pipeCkpt1 (GoValue.str "init") pStreamAThenErr ordId).map
        (fun x => x.1.toExecutionResult) = some ckptRunReturned ∧
    (executeMDAPPipeline pipeCkpt0 (GoValue.str "init") pStreamAThenErr ordId).map
        (fun x => x.1.toExecutionResult) = some ckptRunReturned ∧
    (executeMDAPPipeline pipeCkpt1 (GoValue.str "init") pStreamAThenErr ordId).map
        (fun x => x.1.Checkpoints) = some [⟨1, GoValue.str "s1"⟩] ∧
    (executeMDAPPipeline pipeCkpt0 (GoValue.str "init") pStreamAThenErr ordId).map
        (fun x => x.1.Checkpoints) = some [] := by
  refine ⟨?_, ?_, ?_, ?_⟩ <;> rfl

/-- C2: a dynamic one-step majority pipeline whose step succeeds after
drawing three samples still reports `TotalSamples = 0` (and
`rejected_samples = 0`) both in the result and in the terminal `Complete`
event's metadata: `executeMDAPPipeline` never adds the per-step sample
counts (locals of `executeMicrostepWithVoting`) to the result, so the
claimed accumulation `total_samples ≥ total_microsteps × parallel_samples`
fails (0 < 1 × 3). -/
theorem totalSamples_never_accumulated :
    (executeMDAPPipeline pipeDyn1 (GoValue.str "init") pStreamAThenErr ordId).map
        (fun x => (x.1.TotalMicrosteps, x.1.TotalSamples, x.1.RejectedSamples)) =
      some (1, 0, 0) ∧
    (executeMDAPPipeline pipeDyn1 (GoValue.str "init") pStreamAThenErr ordId).map
        (fun x => x.2.getLast?.map (fun e => (e.type, e.metadata.lookup "total_samples"))) =
      some (some (ProgressType.complete, some "0")) ∧
    (executeMicrostepWithVoting "step-0" cfgMajK1 (pStreamAThenErr 0) ordId).totalSamples = 3 ∧
    numSamples cfgMajK1 = 3 := by
  refine ⟨?_, ?_, ?_, ?_⟩ <;> rfl

/-- C1: at a pipeline shaped like the repository's Tower-of-Hanoi example
(one explicit microstep, `total_steps = 7`) the step loop's microstep
selection at `step_index = 1` hits an out-of-range index (`none` = Go
panic) instead of synthesizing the generic microstep `"step-1"` that the
claim promises; only for an empty microstep list does the loop synthesize
generically. -/
theorem selectMicrostep_oob_panics :
    selectMicrostep [moveMicrostep] 7 1 GoValue.nil "" = none ∧
    selectMicrostep [] 7 1 GoValue.nil "" =
      some (generateMicrostep 1 GoValue.nil "") := by
  constructor
  · rfl
  · rfl

/-- C6: for `mdap_config { k: 5 }` (no `parallel_samples`) the effective
config keeps `ParallelSamples = 3`, the global default, instead of the
claimed `parallel_samples = k = 5`: the `config.ParallelSamples == 0` guard
in `loadMDAPConfig` can never fire because the default is already 3. -/
theorem parallel_samples_not_defaulted_to_k :
    (loadMDAPConfig (some [("k", AstValue.num 5)])).K = 5 ∧
    (loadMDAPConfig (some [("k", AstValue.num 5)])).ParallelSamples = 3 := by
  constructor
  · rfl
  · rfl

/-- C4 counterexample: a sample whose content contains the step-declared
forbidden substring `"rm -rf"` (the spec-modelled predicate fires) passes
`isRedFlagged` under the default config — the filter takes no step argument
at all, so no step-declared red-flag predicate can ever reject a sample. -/
theorem step_red_flags_not_evaluated :
    (isRedFlagged DefaultMDAPConfig sampleRmRf).2 = false ∧
    specStepRedFlagContains "rm -rf" sampleRmRf = true := by
  constructor
  · rfl
  · rfl

/-- C7 counterexample: under first-to-ahead-by-k with `k = 2`, two samples
vote for action `A` carrying next states `s1` then `s2`; at the declaration
the representative stored for `A` is the *last*-seen sample, so the
committed next state is `s2`, not the first-seen `s1` the claim requires. -/
theorem committed_next_state_from_last_seen :
    (executeMicrostepWithVoting "m" cfgFtaK2 streamTwoA ordId).nextState = some "s2" ∧
    (executeMicrostepWithVoting "m" cfgFtaK2 streamTwoA ordId).action = "A" ∧
    (parseHanoiResponse "move = A\nnext_state = s1").2 = some "s1" := by
  refine ⟨?_, ?_, ?_⟩ <;> rfl

/-- C5 counterexample: under majority voting with `k = 1` and three samples
per round, a round with two provider errors and one valid `A` sample
commits immediately (cumulative samples 3 ≥ 3k) although only one
non-rejected sample exists — rejected samples do count toward the
threshold, contrary to the claim. -/
theorem majority_counts_rejected_toward_threshold :
    (executeMicrostepWithVoting "m" cfgMajK1 streamTwoErrOneA ordId).commitRound = some 0 ∧
    (executeMicrostepWithVoting "m" cfgMajK1 streamTwoErrOneA ordId).totalSamples = 3 ∧
    (executeMicrostepWithVoting "m" cfgMajK1 streamTwoErrOneA ordId).rejectedSamples = 2 ∧
    cfgMajK1.K = 1 := by
  refine ⟨?_, ?_, ?_, ?_⟩ <;> rfl

/-- C8 counterexample: two executions with identical config, identical
provider stream and identical initial state, differing only in the order in
which Go happens to iterate the `votes` map (the reversed order is a
permutation of the same map content), commit different winning actions on a
tied majority tally — the committed sequence is not a function of the
inputs the claim lists, and the tie is not broken toward the
earlier-inserted action key. -/
theorem winner_depends_on_map_iteration_order :
    (executeMicrostepWithVoting "m" cfgMajK1 streamTieAB ordId).action = "A" ∧
    (executeMicrostepWithVoting "m" cfgMajK1 streamTieAB ordRev).action = "B" ∧
    List.Perm (ordRev [("A", 1), ("B", 1)]) (ordId [("A", 1), ("B", 1)]) := by
  refine ⟨?_, ?_, ?_⟩
  · rfl
  · rfl
  · decide

theorem parallelSample_length (stream : Nat → Nat → CompletionOutcome)
    (config : MDAPConfig) (round : Nat) :
    (parallelSample stream config round).length = numSamples config := by
  simp [parallelSample]

theorem bumpVote_ne_nil (v : List (String × Nat)) (a : String) :
    bumpVote v a ≠ [] := by
  cases v with
  | nil => simp [bumpVote]
  | cons p t =>
    obtain ⟨b, c⟩ := p
    simp only [bumpVote]
    split <;> simp

theorem tallyStep_totalSamples (config : MDAPConfig) (acc : VoteAcc) (s : MDAPSample) :
    (tallyStep config acc s).totalSamples = acc.totalSamples := by
  unfold tallyStep
  split <;> rfl

theorem tallyFold_totalSamples (config : MDAPConfig) :
    ∀ (ss : List MDAPSample) (acc : VoteAcc),
      (ss.foldl (tallyStep config) acc).totalSamples = acc.totalSamples
  | [], _ => rfl
  | s :: t, acc => by
    rw [List.foldl_cons, tallyFold_totalSamples config t (tallyStep config acc s),
      tallyStep_totalSamples]

theorem tallyFold_votes_nil_iff (config : MDAPConfig) :
    ∀ (ss : List MDAPSample) (acc : VoteAcc),
      (ss.foldl (tallyStep config) acc).votes = [] ↔
        (acc.votes = [] ∧ ss.any (fun s => !(isRedFlagged config s).2) = false)
  | [], acc => by simp
  | s :: t, acc => by
    rw [List.foldl_cons, List.any_cons]
    by_cases hf : (isRedFlagged config s).2
    · have hstep : tallyStep config acc s = { acc with rejectedSamples := acc.rejectedSamples + 1 } := by
        unfold tallyStep
        rw [if_pos hf]
      rw [tallyFold_votes_nil_iff config t _, hstep]
      simp [hf]
    · have hstep : (tallyStep config acc s).votes =
          bumpVote acc.votes (if s.Action = "" then s.Content else s.Action) := by
        unfold tallyStep
        rw [if_neg hf]
      rw [tallyFold_votes_nil_iff config t _]
      simp only [hstep]
      constructor
      · intro ⟨hb, _⟩
        exact absurd hb (bumpVote_ne_nil _ _)
      · intro ⟨_, hany⟩
        rw [Bool.or_eq_false_iff] at hany
        simp [hf] at hany

theorem processSamples_majority (config : MDAPConfig)
    (ord : List (String × Nat) → List (String × Nat))
    (hstrat : config.VotingStrategy = "majority") :
    ∀ (ss : List MDAPSample) (acc : VoteAcc),
      processSamples config ord ss acc = .inr (ss.foldl (tallyStep config) acc)
  | [], acc => rfl
  | s :: t, acc => by
    simp only [processSamples, List.foldl_cons]
    by_cases hf : (isRedFlagged config s).2
    · rw [if_pos hf]
      exact processSamples_majority config ord hstrat t _
    · rw [if_neg hf, if_neg (by
        intro h
        exact absurd (hstrat ▸ h.1) (by decide))]
      exact processSamples_majority config ord hstrat t _

theorem votingLoop_succ_majority (stepName : String) (config : MDAPConfig)
    (stream : Nat → Nat → CompletionOutcome)
    (ord : List (String × Nat) → List (String × Nat))
    (hstrat : config.VotingStrategy = "majority")
    (fuel round : Nat) (acc : VoteAcc) :
    votingLoop stepName config stream ord (fuel + 1) round acc =
      (if ((parallelSample stream config round).foldl (tallyStep config)
            { acc with totalSamples := acc.totalSamples + (parallelSample stream config round).length }).votes ≠ [] ∧
          ((((parallelSample stream config round).foldl (tallyStep config)
            { acc with totalSamples := acc.totalSamples + (parallelSample stream config round).length }).totalSamples : Int) ≥ config.K * 3) then
        commitOutcome stepName round
          (getWinner (ord ((parallelSample stream config round).foldl (tallyStep config)
            { acc with totalSamples := acc.totalSamples + (parallelSample stream config round).length }).votes))
          ((((parallelSample stream config round).foldl (tallyStep config)
            { acc with totalSamples := acc.totalSamples + (parallelSample stream config round).length }).samples.lookup
              (getWinner (ord ((parallelSample stream config round).foldl (tallyStep config)
                { acc with totalSamples := acc.totalSamples + (parallelSample stream config round).length }).votes))).getD zeroMDAPSample)
          ((parallelSample stream config round).foldl (tallyStep config)
            { acc with totalSamples := acc.totalSamples + (parallelSample stream config round).length })
      else
        votingLoop stepName config stream ord fuel (round + 1)
          ((parallelSample stream config round).foldl (tallyStep config)
            { acc with totalSamples := acc.totalSamples + (parallelSample stream config round).length })) := by
  conv_lhs => rw [votingLoop]
  rw [processSamples_majority config ord hstrat]
  simp only [hstrat, true_and]

theorem votingLoop_majority_commitRound (stepName : String) (config : MDAPConfig)
    (stream : Nat → Nat → CompletionOutcome)
    (ord : List (String × Nat) → List (String × Nat))
    (hstrat : config.VotingStrategy = "majority") :
    ∀ (fuel round : Nat) (acc : VoteAcc),
      acc.totalSamples = round * numSamples config →
      ((acc.votes = []) ↔ ((List.range round).any (roundHasAccepted config stream) = false)) →
      ∀ r : Nat,
        ((votingLoop stepName config stream ord fuel round acc).commitRound = some r ↔
          (round ≤ r ∧ r < round + fuel ∧ majorityGuard config stream r = true ∧
            ∀ r', round ≤ r' → r' < r → majorityGuard config stream r' = false)) := by
  intro fuel
  induction fuel with
  | zero =>
    intro round acc hts hvn r
    simp only [votingLoop, noConsensusOutcome]
    constructor
    · intro h
      exact absurd h (by simp)
    · intro ⟨h1, h2, _⟩
      omega
  | succ n ih =>
    intro round acc hts hvn r
    rw [votingLoop_succ_majority stepName config stream ord hstrat]
    set accF := (parallelSample stream config round).foldl (tallyStep config)
      { acc with totalSamples := acc.totalSamples + (parallelSample stream config round).length }
      with haccF
    have hts' : accF.totalSamples = (round + 1) * numSamples config := by
      rw [haccF, tallyFold_totalSamples]
      show acc.totalSamples + (parallelSample stream config round).length = _
      rw [hts, parallelSample_length]
      ring
    have hvn' : (accF.votes = []) ↔
        ((List.range (round + 1)).any (roundHasAccepted config stream) = false) := by
      rw [haccF, tallyFold_votes_nil_iff]
      rw [List.range_succ, List.any_append, List.any_cons, List.any_nil]
      constructor
      · intro ⟨ha, hb⟩
        rw [Bool.or_eq_false_iff]
        refine ⟨hvn.mp ha, ?_⟩
        rw [Bool.or_eq_false_iff]
        exact ⟨hb, rfl⟩
      · intro h
        rw [Bool.or_eq_false_iff] at h
        obtain ⟨h1, h2⟩ := h
        rw [Bool.or_eq_false_iff] at h2
        exact ⟨hvn.mpr h1, h2.1⟩
    have hguard : ((accF.votes ≠ []) ∧ ((accF.totalSamples : Int) ≥ config.K * 3)) ↔
        majorityGuard config stream round = true := by
      unfold majorityGuard talliedBy
      rw [Bool.and_eq_true, decide_eq_true_eq, hts']
      constructor
      · intro ⟨ha, hb⟩
        refine ⟨?_, hb⟩
        rcases h : (List.range (round + 1)).any (roundHasAccepted config stream) with _ | _
        · exact absurd (hvn'.mpr h) ha
        · rfl
      · intro ⟨ha, hb⟩
        refine ⟨?_, hb⟩
        intro hnil
        rw [hvn'.mp hnil] at ha
        cases ha
    have hgf_of : ¬ majorityGuard config stream round = true →
        majorityGuard config stream round = false := by
      intro h
      cases hmg : majorityGuard config stream round
      · rfl
      · exact absurd hmg h
    by_cases hg : majorityGuard config stream round = true
    · rw [if_pos (hguard.mpr hg)]
      show some round = some r ↔ _
      constructor
      · intro h
        have hr : round = r := by
          injection h
        subst hr
        exact ⟨Nat.le_refl _, by omega, hg, fun r' hge hlt => by omega⟩
      · intro ⟨h1, h2, h3, h4⟩
        have hr : r = round := by
          by_contra hne
          have := h4 round (Nat.le_refl _) (by omega)
          rw [this] at hg
          cases hg
        rw [hr]
    · rw [if_neg (fun hc => hg (hguard.mp hc))]
      rw [ih (round + 1) accF hts' hvn' r]
      have hgf : majorityGuard config stream round = false := hgf_of hg
      constructor
      · intro ⟨h1, h2, h3, h4⟩
        refine ⟨by omega, by omega, h3, ?_⟩
        intro r' hge hlt
        by_cases hr' : r' = round
        · rw [hr']
          exact hgf
        · exact h4 r' (by omega) hlt
      · intro ⟨h1, h2, h3, h4⟩
        have hne : r ≠ round := by
          intro h
          subst h
          rw [h3] at hgf
          cases hgf
        refine ⟨by omega, by omega, h3, ?_⟩
        intro r' hge hlt
        exact h4 r' (by omega) hlt

/-- C5 (amended part): under the majority strategy a winner is declared at
the end of round `r` exactly when `r` is the first round at which the
cumulative number of samples taken — rejected samples included — reaches
`3k` and at least one sample has been tallied; rejected samples do count
toward the `3k` threshold. -/
theorem majority_commit_round_characterization (stepName : String)
    (config : MDAPConfig) (stream : Nat → Nat → CompletionOutcome)
    (ord : List (String × Nat) → List (String × Nat))
    (hstrat : config.VotingStrategy = "majority") (r : Nat) :
    (executeMicrostepWithVoting stepName config stream ord).commitRound = some r ↔
      (r < config.MaxRetries.toNat ∧ majorityGuard config stream r = true ∧
        ∀ r' < r, majorityGuard config stream r' = false) := by
  unfold executeMicrostepWithVoting
  rw [votingLoop_majority_commitRound stepName config stream ord hstrat _ 0 _
    (Nat.zero_mul _).symm (by simp)]
  constructor
  · intro ⟨h1, h2, h3, h4⟩
    exact ⟨by omega, h3, fun r' hlt => h4 r' (Nat.zero_le _) hlt⟩
  · intro ⟨h1, h2, h3⟩
    exact ⟨Nat.zero_le _, by omega, h2, fun r' _ hlt => h3 r' hlt⟩

/-- C5 amended witness: the two-errors-one-vote round under majority with
`k = 1` commits at round 0, matching the characterization. -/
theorem majority_commit_round_characterization_witness :
    cfgMajK1.VotingStrategy = "majority" ∧
    ((executeMicrostepWithVoting "m" cfgMajK1 streamTwoErrOneA ordId).commitRound = some 0 ↔
      (0 < cfgMajK1.MaxRetries.toNat ∧ majorityGuard cfgMajK1 streamTwoErrOneA 0 = true ∧
        ∀ r' < 0, majorityGuard cfgMajK1 streamTwoErrOneA r' = false)) :=
  ⟨rfl, majority_commit_round_characterization "m" cfgMajK1 streamTwoErrOneA ordId rfl 0⟩
